import Mathlib

set_option maxRecDepth 8192

/-!
# Verification of the wormpy crawler core

A shallow embedding, in Lean 4, of the pure/state-passing content of the
wormpy web crawler (`modules/utils/url_tracker.py`, `modules/utils/utils.py`,
`modules/processors/url_processor.py`, `modules/processors/content_processor.py`,
`modules/scraper.py`), together with theorems settling the specification
claims about it.

Modelling conventions:
* Python strings are Lean `String`s (operated on through their `List Char`
  data where that eases induction).
* Python sets of strings are `Finset String` where only membership matters,
  and `List String` where iteration/insertion order is observable.
* Stateful classes become structures with explicit state passing.
* Network and third-party library calls (requests, BeautifulSoup, PyPDF2,
  Selenium, `random.uniform`, `time.time`) are abstracted as explicit
  oracle arguments; everything the repository itself computes is modelled
  from its source.
* Exceptions are modelled with `Option`: `none` stands for a raised
  exception where the source catches or propagates one.
-/

namespace Wormpy



/-! ## URLTracker (`modules/utils/url_tracker.py`)

The tracker holds a set `visited_urls` and a deque `url_pool`.  The deque is
modelled as a `List String` (append on the right = `deque.append`,
`popleft` = head, `appendleft` = cons).  The `asyncio.Lock` serialises the
mutations; the model is the serialised semantics. -/

structure URLTracker where
  visitedUrls : Finset String
  urlPool : List String
  deriving DecidableEq

namespace URLTracker

/-- The freshly constructed tracker (`URLTracker.__init__`). -/
def init : URLTracker := ⟨∅, []⟩

/-- `is_visited(url)`: membership in the visited set. -/
def is_visited (t : URLTracker) (url : String) : Bool :=
  url ∈ t.visitedUrls

/-- `mark_visited(url)`: insert into the visited set. -/
def mark_visited (t : URLTracker) (url : String) : URLTracker :=
  { t with visitedUrls := insert url t.visitedUrls }

/-- `add_to_pool(url)`: append the url (verbatim) to the pool if it is not
in the visited set; otherwise do nothing.  The source checks only
`is_visited` — it neither normalizes the url nor tests whether it is
already pending. -/
def add_to_pool (t : URLTracker) (url : String) : URLTracker :=
  if t.is_visited url then t
  else { t with urlPool := t.urlPool ++ [url] }

/-- `get_next_url()`: pop from the left of the deque, returning the url (or
`none` when the pool is empty) together with the new state. -/
def get_next_url (t : URLTracker) : Option String × URLTracker :=
  match t.urlPool with
  | [] => (none, t)
  | u :: rest => (some u, { t with urlPool := rest })

/-- `add_bulk_to_pool(urls)`: append every url of the iterable that is not
in the visited set, in iteration order (the Python argument is a `set`; the
model takes the iteration order as a list).  Like `add_to_pool` it never
tests the pending pool. -/
def add_bulk_to_pool (t : URLTracker) (urls : List String) : URLTracker :=
  { t with urlPool := t.urlPool ++ urls.filter (fun u => decide (u ∉ t.visitedUrls)) }

/-- `return_url_to_pool(url)`: push onto the left of the deque. -/
def return_url_to_pool (t : URLTracker) (url : String) : URLTracker :=
  { t with urlPool := url :: t.urlPool }

/-- `clear_pool()`. -/
def clear_pool (t : URLTracker) : URLTracker :=
  { t with urlPool := [] }

end URLTracker

/-- A single (serialised) mutating call on the shared `URLTracker`. -/
inductive TrackerOp where
  | markVisited (url : String)
  | addToPool (url : String)
  | getNextUrl
  | addBulkToPool (urls : List String)
  | returnUrlToPool (url : String)
  | clearPool
  deriving DecidableEq, Repr

/-- State transition of one tracker call. -/
def TrackerOp.apply (op : TrackerOp) (t : URLTracker) : URLTracker :=
  match op with
  | .markVisited u => t.mark_visited u
  | .addToPool u => t.add_to_pool u
  | .getNextUrl => (t.get_next_url).2
  | .addBulkToPool us => t.add_bulk_to_pool us
  | .returnUrlToPool u => t.return_url_to_pool u
  | .clearPool => t.clear_pool

/-- State after a sequence of tracker calls, first call first. -/
def TrackerOp.applyList (ops : List TrackerOp) (t : URLTracker) : URLTracker :=
  ops.foldl (fun s op => op.apply s) t

/-! ## AsyncRateLimiter (`modules/utils/utils.py`, lines 18-51)

`wait(domain)` reads the wall clock (`t1 := time.time()`), computes
`elapsed := t1 - last_request_times[domain]`, draws
`delay := random.uniform(min_delay, max_delay)`, sleeps `delay - elapsed`
when `elapsed < delay`, and finally stores a fresh clock reading as the
domain's last-dispatch time.  Wall-clock readings and the uniform draw are
oracles; time is `ℚ`. -/

/-- The duration `wait` passes to `asyncio.sleep` (taken as `0` when the
`if elapsed < delay` guard fails and no sleep happens), given the domain's
stored last-dispatch time `last`, the clock reading `t1` at entry, and the
drawn delay. -/
def rateLimiterSleep (last t1 delay : ℚ) : ℚ :=
  if t1 - last < delay then delay - (t1 - last) else 0

/-- The timestamp `wait` records for the domain: the second `time.time()`
reading.  `slack ≥ 0` is whatever real time passes beyond the requested
sleep (`asyncio.sleep` never wakes early, and the clock only moves
forward between statements). -/
def rateLimiterRecorded (last t1 delay slack : ℚ) : ℚ :=
  t1 + rateLimiterSleep last t1 delay + slack

/-! ## fetch_page retry loop (`modules/processors/content_processor.py`,
lines 87-133)

`for attempt in range(max_retries)` runs the fetch body; on an exception it
sleeps `initial_delay * 2 ** attempt` and retries, unless the failing
attempt was the last one (`attempt = max_retries - 1`), in which case the
exception is re-raised.  When `max_retries = 0` the loop body never runs
and the function falls through, returning `None` without raising.  The
attempt body (static fetch / Selenium escalation) is abstracted to an
oracle `attemptResult : ℕ → Option α` indexed by the attempt number
(`none` = the body raised). -/

/-- Outcome of one `fetch_page` call, together with its observable trace. -/
structure FetchTrace (α : Type) where
  /-- Sleeps performed between consecutive attempts, in order. -/
  delays : List ℕ
  /-- How many times the attempt body ran. -/
  attempts : ℕ
  /-- `some (some a)` = returned `a`; `some none` = fell through the loop
  returning `None`; `none` = re-raised the final exception. -/
  outcome : Option (Option α)
  deriving DecidableEq, Repr

/-- The retry loop of `fetch_page`, starting at attempt number `attempt`
with `remaining` loop iterations left (`remaining = max_retries - attempt`
on entry). -/
def fetchPageLoop {α : Type} (attemptResult : ℕ → Option α) (initialDelay : ℕ) :
    (attempt remaining : ℕ) → FetchTrace α
  | _, 0 => ⟨[], 0, some none⟩
  | attempt, remaining + 1 =>
    match attemptResult attempt with
    | some a => ⟨[], 1, some (some a)⟩
    | none =>
      if remaining = 0 then
        -- `attempt < max_retries - 1` fails: re-raise
        ⟨[], 1, none⟩
      else
        let rest := fetchPageLoop attemptResult initialDelay (attempt + 1) remaining
        ⟨initialDelay * 2 ^ attempt :: rest.delays, rest.attempts + 1, rest.outcome⟩

/-- `fetch_page` with the static/Selenium body abstracted: runs the retry
loop from attempt `0` for `max_retries` iterations. -/
def fetch_page {α : Type} (attemptResult : ℕ → Option α)
    (max_retries initial_delay : ℕ) : FetchTrace α :=
  fetchPageLoop attemptResult initial_delay 0 max_retries

/-- `config.py`: `MAX_RETRIES = 2`. -/
def MAX_RETRIES : ℕ := 2

/-- `config.py`: `INITIAL_RETRY_DELAY = 1`. -/
def INITIAL_RETRY_DELAY : ℕ := 1

/-! ## urllib.parse.urlparse

`url_processor.py` builds everything on `urllib.parse.urlparse`.  The model
below follows CPython's `urlsplit`/`urlparse` (`Lib/urllib/parse.py`):
strip leading C0-control/space characters, remove ASCII tab/CR/LF, split
off a valid scheme at the first colon, split the netloc after a leading
`//` at the first of `/?#`, then split fragment (first `#`), query (first
`?`) and params (first `;` in the last path segment).  Simplifications,
noted here once: `str.lower` is modelled for ASCII; the `ValueError` paths
for malformed IPv6 netlocs (`_check_bracketed_host`, `_checknetloc`) are
omitted, so the model is the non-raising fragment of `urlparse`. -/

/-- A character of `urllib.parse.scheme_chars`
(ASCII letters, digits, `+`, `-`, `.`). -/
def isSchemeChar (c : Char) : Bool :=
  ('a' ≤ c && c ≤ 'z') || ('A' ≤ c && c ≤ 'Z') || ('0' ≤ c && c ≤ '9') ||
    c = '+' || c = '-' || c = '.'

/-- `c.isascii() and c.isalpha()`. -/
def isAsciiAlpha (c : Char) : Bool :=
  ('a' ≤ c && c ≤ 'z') || ('A' ≤ c && c ≤ 'Z')

/-- `str.lower` on one character, for the ASCII range. -/
def pyLowerChar (c : Char) : Char :=
  if 'A' ≤ c && c ≤ 'Z' then Char.ofNat (c.toNat + 32) else c

/-- `str.lower` (ASCII model). -/
def pyLower (s : List Char) : List Char :=
  s.map pyLowerChar

/-- A member of `_WHATWG_C0_CONTROL_OR_SPACE` (U+0000 – U+0020). -/
def isC0OrSpace (c : Char) : Bool :=
  c.toNat ≤ 32

/-- A member of `_UNSAFE_URL_BYTES_TO_REMOVE` (tab, CR, LF). -/
def isUnsafeUrlChar (c : Char) : Bool :=
  c = '\t' || c = '\r' || c = '\n'

/-- Scheme detection of `urlsplit`: `i = url.find(':')`; a scheme is split
off when `i > 0`, `url[0]` is an ASCII letter and every character of
`url[:i]` is a scheme character; the scheme is lowercased.  Returns
`(scheme, remainder)`, with `scheme = []` when no scheme is recognised. -/
def splitScheme (url : List Char) : List Char × List Char :=
  let before := url.takeWhile (fun c => c ≠ ':')
  match url.dropWhile (fun c => c ≠ ':') with
  | [] => ([], url)
  | _ :: after =>
    match before with
    | [] => ([], url)
    | c :: _ =>
      if isAsciiAlpha c && before.all isSchemeChar then (before.map pyLowerChar, after)
      else ([], url)

/-- A netloc delimiter of `_splitnetloc` (`/?#`). -/
def isNetlocDelim (c : Char) : Bool :=
  c = '/' || c = '?' || c = '#'

/-- `_splitnetloc`, guarded by `url[:2] == '//'`: the netloc runs from
after the `//` to the first of `/?#`. -/
def splitNetloc (url : List Char) : List Char × List Char :=
  if url.take 2 = ['/', '/'] then
    ((url.drop 2).takeWhile (fun c => !isNetlocDelim c),
      (url.drop 2).dropWhile (fun c => !isNetlocDelim c))
  else ([], url)

/-- `url.split(ch, 1)` when `ch ∈ url`, else `(url, '')` — the fragment and
query splits of `urlsplit`. -/
def splitAtFirst (ch : Char) (url : List Char) : List Char × List Char :=
  (url.takeWhile (fun c => c ≠ ch),
    match url.dropWhile (fun c => c ≠ ch) with
    | [] => []
    | _ :: rest => rest)

/-- Split a list as `pre ++ seg` where `seg` is the part after the last
`'/'` (the whole list when it has no `'/'`). -/
def lastSegSplit : List Char → List Char × List Char
  | [] => ([], [])
  | c :: cs =>
    if ('/' : Char) ∈ cs then
      let r := lastSegSplit cs
      (c :: r.1, r.2)
    else if c = '/' then ([c], cs)
    else ([], c :: cs)

/-- `urlparse`'s params split: when the path contains `';'`,
`_splitparams` cuts at the first `';'` of the last `/`-segment (leaving
the path unchanged when that segment has none). -/
def splitParams (p : List Char) : List Char × List Char :=
  if (';' : Char) ∈ p then
    if ('/' : Char) ∈ p then
      let pre := (lastSegSplit p).1
      let seg := (lastSegSplit p).2
      if (';' : Char) ∈ seg then
        (pre ++ seg.takeWhile (fun c => c ≠ ';'),
          match seg.dropWhile (fun c => c ≠ ';') with
          | [] => []
          | _ :: rest => rest)
      else (p, [])
    else splitAtFirst ';' p
  else (p, [])

/-- The six components of a Python `ParseResult`. -/
structure PyUrl where
  scheme : List Char
  netloc : List Char
  path : List Char
  params : List Char
  query : List Char
  fragment : List Char
  deriving DecidableEq, Repr

/-- `urllib.parse.urlparse` on the character list of a string
(with `allow_fragments = True` and no default scheme). -/
def urlparseList (url0 : List Char) : PyUrl :=
  let url1 := url0.dropWhile isC0OrSpace
  let url2 := url1.filter (fun c => !isUnsafeUrlChar c)
  let s := splitScheme url2
  let n := splitNetloc s.2
  let f := splitAtFirst '#' n.2
  let q := splitAtFirst '?' f.1
  let pp := splitParams q.1
  ⟨s.1, n.1, pp.1, pp.2, q.2, f.2⟩

/-- `urllib.parse.urlparse` on a string. -/
def pyUrlparse (url : String) : PyUrl :=
  urlparseList url.data

/-! ## url_processor.py and utils.py pure helpers -/

/-- `get_domain(url)`: `urlparse(url).netloc`. -/
def get_domain (url : String) : String :=
  String.mk (pyUrlparse url).netloc

/-- `utils.is_image_file_extension`'s extension list. -/
def imageExtensions : List String :=
  ["jpg", "jpeg", "png", "gif", "bmp", "svg", "mp3", "mp4", "wav", "avi", "mov"]

/-- `is_image_file_extension(path)`:
`path.split('.')[-1].lower() in image_extensions`. -/
def is_image_file_extension (path : String) : Bool :=
  let lastSeg := (path.data.reverse.takeWhile (fun c => c ≠ '.')).reverse
  imageExtensions.contains (String.mk (pyLower lastSeg))

/-- `is_valid_url(url, base_url)`: same netloc and not an image/media file
extension. -/
def is_valid_url (url base_url : String) : Bool :=
  decide ((pyUrlparse url).netloc = (pyUrlparse base_url).netloc) &&
    !is_image_file_extension (String.mk (pyUrlparse url).path)

/-- `path.rstrip('/')`. -/
def rstripSlash (p : List Char) : List Char :=
  (p.reverse.dropWhile (fun c => c = '/')).reverse

/-- The character-list body of `normalize_url`: parse `url.lower()`,
default the scheme to `https` when absent, strip trailing slashes from the
path, and rebuild `scheme://netloc + path` (dropping params, query and
fragment). -/
def normalizeList (data : List Char) : List Char :=
  let parsed := urlparseList (pyLower data)
  let scheme := if parsed.scheme = [] then "https".data else parsed.scheme
  scheme ++ "://".data ++ parsed.netloc ++ rstripSlash parsed.path

/-- `normalize_url(url)` of `url_processor.py`. -/
def normalize_url (url : String) : String :=
  String.mk (normalizeList url.data)

/-- The keys of `urllib.parse.parse_qs(qs)`: split the query on `&`; a
part contributes its text before the first `=` when it contains `=` and
has a non-empty value (defaults `keep_blank_values=False`,
`separator='&'`; percent-decoding of keys is not modelled). -/
def parseQsKeys (qs : List Char) : List (List Char) :=
  (qs.splitOn '&').filterMap (fun part =>
    if part = [] then none
    else if ('=' : Char) ∈ part then
      let value := (part.dropWhile (fun c => c ≠ '=')).tail
      if value = [] then none else some (part.takeWhile (fun c => c ≠ '='))
    else none)

/-- `is_suspicious_url(url)`: a gallery/item query parameter is present, or
the path carries an image/media extension. -/
def is_suspicious_url (url : String) : Bool :=
  (["itemId", "imageId", "galleryId"].any
      (fun p => decide (p.data ∈ parseQsKeys (pyUrlparse url).query))) ||
    is_image_file_extension (String.mk (pyUrlparse url).path)

/-! ## List-level lemmas for the normalization proofs -/

/-- Every character of the list is a fixed point of `pyLowerChar`. -/
def AllLower (l : List Char) : Prop :=
  ∀ c ∈ l, pyLowerChar c = c

/-! ## content_processor.py: dynamic-content heuristic and process_page

`extract_text_from_html`, `extract_metadata`, the PDF reader, the anchor
harvest of `extract_urls` and the network HEAD probes are BeautifulSoup /
PyPDF2 / requests work — external collaborators — and enter as oracles
(`none` = the call raised).  Everything else (dispatch, thresholds,
truthiness tests, error containment) is modelled from the source. -/

/-- `url.lower()` at `String` level. -/
def pyLowerStr (url : String) : String :=
  String.mk (pyLower url.data)

/-- Python `s.startswith(pre)`: a prefix test on the characters. -/
def pyStartsWith (s pre : String) : Bool :=
  pre.data.isPrefixOf s.data

/-- Python `s.endswith(suf)`: a suffix test on the characters. -/
def pyEndsWith (s suf : String) : Bool :=
  suf.data.isSuffixOf s.data

/-- `is_dynamic_content(content)` (lines 270-287): `None` content counts as
dynamic; otherwise extract the visible text of the HTML (`extractText`
oracle; `none` = `extract_text_from_html` or the utf-8 decode raised, which
also counts as dynamic) and compare its length with the 500-character
threshold. -/
def is_dynamic_content (extractText : String → Option String)
    (content : Option String) : Bool :=
  match content with
  | none => true
  | some c =>
    match extractText c with
    | none => true
    | some t => decide (t.length < 500)

/-- The escalation condition of `fetch_page` after a successful static
fetch (line 113): switch to Selenium iff the caller did not force `req`
and the dynamic-content heuristic fires. -/
def escalatesToSelenium (extractText : String → Option String)
    (force_scrape_method : Option String) (content : String) : Bool :=
  decide (force_scrape_method ≠ some "req") &&
    is_dynamic_content extractText (some content)

/-- The external calls `process_page` and its helpers make. -/
structure ProcessOracles where
  /-- `extract_metadata(content, content_type, url)`; the metadata map is
  opaque here, `none` = it raised. -/
  extract_metadata : String → String → String → Option String
  /-- `extract_text_from_html(html)`; `none` = it raised (it re-raises
  internal errors). -/
  extract_text_from_html : String → Option String
  /-- `extract_text_from_pdf(url)`: never raises — it catches everything
  and returns an error string instead. -/
  extract_text_from_pdf : String → String
  /-- The anchor harvest of `extract_urls` on HTML content: BeautifulSoup
  `find_all('a', href=True)` resolved with `urljoin` (never raises; the
  caller catches and returns the empty set). -/
  extractAnchors : String → String → List String
  /-- The `requests.head` content-type probe of `is_pdf_url` (`False` when
  the request raised). -/
  headSaysPdf : String → Bool

/-- `is_pdf_url(url)`: `.pdf` suffix of the lowercased url, or the HEAD
probe reports `application/pdf`. -/
def is_pdf_url (headSaysPdf : String → Bool) (url : String) : Bool :=
  pyEndsWith (pyLowerStr url) ".pdf" || headSaysPdf url

/-- `extract_urls(content, base_url, content_type)`: anchor harvest for
HTML, the empty set for PDF and anything else (and on any exception). -/
def extract_urls (anchors : String → String → List String)
    (content : String) (base_url : String) (content_type : String) : List String :=
  if pyStartsWith (pyLowerStr content_type) "text/html" then anchors content base_url
  else []

/-- `process_page(scraper_id, url, ...)` (lines 18-60): run `fetch_page`
(outcome supplied as `fetchResult`; `none` = it raised after exhausting its
retries), extract metadata and text by content type, and choose the
discovered urls; any exception anywhere in the body is caught and turned
into `(None, None, None, None, [])`. -/
def process_page (oracles : ProcessOracles)
    (fetchResult : Option (String × String × List String))
    (scraper_id : ℕ) (url : String) :
    Option String × Option String × Option String × Option String × List String :=
  match (do
    let (content, content_type, fetched_urls) ← fetchResult
    let metadata ← oracles.extract_metadata content content_type url
    let extracted_text ←
      if pyStartsWith (pyLowerStr content_type) "text/html" then
        oracles.extract_text_from_html content
      else if pyLowerStr content_type = "application/pdf" ||
          is_pdf_url oracles.headSaysPdf url then
        some (oracles.extract_text_from_pdf url)
      else
        some ("Scraper " ++ toString scraper_id ++ ": Unsupported content type: "
          ++ content_type)
    let discovered_urls := if fetched_urls ≠ [] then fetched_urls
      else extract_urls oracles.extractAnchors content url content_type
    pure (content, content_type, extracted_text, metadata, discovered_urls) :
      Option (String × String × String × String × List String)) with
  | some (c, ct, t, m, d) => (some c, some ct, some t, some m, d)
  | none => (none, none, none, none, [])

/-! ## WebsiteScraper.scrape (`modules/scraper.py`, lines 53-146)

A single scraper instance run against the shared `url_tracker` visited
set.  External effects per processed url sit in a `ScrapeEnv`.  The
exception paths of the `try` block are modelled by `tryFault`:
`webDriver` = `get_selenium_driver()` raised `WebDriverException` (caught
at line 126: no record, no visited mark); `generic msg` = a non-Selenium
exception escaped (caught at line 134: an error-only record keyed by the
normalized url, which joins `error_urls`); `process_page` itself never
raises. -/

inductive TryFault where
  | webDriver
  | generic (msg : String)
  deriving DecidableEq, Repr

/-- A Page Record as stored in `self.results`: the success path stores the
keys `metadata`/`content`/`discovered_urls` (line 109); the generic-error
path stores only `content` (line 137). -/
inductive PageRecord where
  | full (metadata : Option String) (content : Option String)
      (discoveredUrls : List String)
  | errorOnly (content : String)
  deriving DecidableEq, Repr

/-- The `content` field of a Page Record (`None` when absent). -/
def PageRecord.contentField : PageRecord → Option String
  | .full _ c _ => c
  | .errorOnly c => some c

/-- External world of one scraper run. -/
structure ScrapeEnv where
  /-- Outcome of `fetch_page` for a url: `none` = terminal failure (the
  raise after the last retry). -/
  fetch : String → Option (String × String × List String)
  oracles : ProcessOracles
  /-- Exception outcome of the `try` body for this url, see above. -/
  tryFault : String → Option TryFault
  /-- `is_image_content_type(url)`: the HEAD content-type probe. -/
  imageHead : String → Bool

/-- The mutable state of `WebsiteScraper.scrape` plus the shared
`url_tracker` visited set. -/
structure ScrapeState where
  urlsToProcess : List (String × ℕ)
  processedUrls : Finset String
  errorUrls : Finset String
  allDiscoveredUrls : Finset String
  results : List (String × PageRecord)
  visited : Finset String

/-- `WebsiteScraper.__init__(base_url, ...)` with a fresh tracker. -/
def ScrapeState.init (base_url : String) : ScrapeState :=
  ⟨[(base_url, 0)], ∅, ∅, ∅, [], ∅⟩

/-- Lexicographic code-point comparison, Python string `<=`. -/
def charListLe : List Char → List Char → Bool
  | [], _ => true
  | _ :: _, [] => false
  | a :: as, b :: bs =>
    if a < b then true
    else if b < a then false
    else charListLe as bs

/-- Insertion step of the sort used to model Python `sorted`. -/
def insertSorted (s : String) : List String → List String
  | [] => [s]
  | x :: xs => if charListLe s.data x.data then s :: x :: xs else x :: insertSorted s xs

/-- `sorted(list(...))` on strings (insertion sort; order is irrelevant to
every claim below, membership is what matters). -/
def sortStrings : List String → List String
  | [] => []
  | x :: xs => insertSorted x (sortStrings xs)

/-- One iteration of the `while self.urls_to_process` loop. -/
def scrapeStep (env : ScrapeEnv) (base_url : String) (max_depth : ℕ)
    (scraper_id : ℕ) (s : ScrapeState) : ScrapeState :=
  match s.urlsToProcess with
  | [] => s
  | (current_url, depth) :: rest =>
    let s1 : ScrapeState := { s with urlsToProcess := rest }
    let normalized_url := normalize_url current_url
    if ¬ pyStartsWith normalized_url base_url then s1
    else if normalized_url ∈ s1.processedUrls ∨ normalized_url ∈ s1.errorUrls then s1
    else if normalized_url ∈ s1.visited then s1
    else if is_suspicious_url current_url && env.imageHead current_url then s1
    else
      match env.tryFault current_url with
      | some .webDriver => s1
      | some (.generic msg) =>
          { s1 with
            results := s1.results ++ [(normalized_url, .errorOnly msg)],
            errorUrls := insert normalized_url s1.errorUrls }
      | none =>
          let r := process_page env.oracles (env.fetch current_url)
            scraper_id current_url
          let extracted_text := r.2.2.1
          let metadata := r.2.2.2.1
          let discovered_urls := r.2.2.2.2
          let all_discovered := (discovered_urls.map normalize_url).dedup
          let urls_for_processing := all_discovered.filter
            (fun url => pyStartsWith url base_url &&
              decide (url ∉ s1.processedUrls) && decide (url ∉ s1.errorUrls))
          let sorted_all_discovered := sortStrings all_discovered
          let sorted_urls_for_processing := sortStrings urls_for_processing
          { s1 with
            results := s1.results ++
              [(normalized_url, .full metadata extracted_text sorted_all_discovered)],
            processedUrls := insert normalized_url s1.processedUrls,
            allDiscoveredUrls := s1.allDiscoveredUrls ∪ all_discovered.toFinset,
            visited := insert normalized_url s1.visited,
            urlsToProcess :=
              if depth < max_depth then
                rest ++ sorted_urls_for_processing.map (fun url => (url, depth + 1))
              else rest }

/-- The `while` loop, fuel-bounded (the crawl need not terminate; every
claim below is an invariant over any number of iterations). -/
def scrapeRun (env : ScrapeEnv) (base_url : String) (max_depth : ℕ)
    (scraper_id : ℕ) : ℕ → ScrapeState → ScrapeState
  | 0, s => s
  | fuel + 1, s =>
    match s.urlsToProcess with
    | [] => s
    | _ => scrapeRun env base_url max_depth scraper_id fuel
        (scrapeStep env base_url max_depth scraper_id s)

/-- Extraction oracles whose calls all succeed with fixed values. -/
def oraclesTrivial : ProcessOracles :=
  ⟨fun _ _ _ => some "meta", fun _ => some "text", fun _ => "pdf",
    fun _ _ => [], fun _ => false⟩

/-- Every fetch fails terminally; nothing else goes wrong. -/
def envTerminalFailure : ScrapeEnv :=
  ⟨fun _ => none, oraclesTrivial, fun _ => none, fun _ => false⟩

/-- The seed page links to a same-site page and to a foreign one. -/
def envForeignLink : ScrapeEnv :=
  ⟨fun u => if u = "https://example.com"
      then some ("<html>", "text/html",
        ["https://example.com/a", "https://other.com/b"])
      else some ("<html>", "text/html", []),
    oraclesTrivial, fun _ => none, fun _ => false⟩

/-- The seed page links to a foreign domain whose url string happens to
start with the base url. -/
def envEvilPrefix : ScrapeEnv :=
  ⟨fun u => if u = "https://example.com"
      then some ("<html>", "text/html", ["https://example.com.evil.org/b"])
      else some ("<html>", "text/html", []),
    oraclesTrivial, fun _ => none, fun _ => false⟩

/-- No tracker operation ever removes a url from the visited set. -/
theorem TrackerOp.visited_mono (op : TrackerOp) (t : URLTracker) :
    t.visitedUrls ⊆ (op.apply t).visitedUrls := by
  cases op with
  | markVisited u =>
      exact fun x hx => Finset.mem_insert_of_mem hx
  | addToPool u =>
      simp only [apply, URLTracker.add_to_pool]
      split <;> exact fun x hx => hx
  | getNextUrl =>
      simp only [apply, URLTracker.get_next_url]
      cases t.urlPool <;> exact fun x hx => hx
  | addBulkToPool us =>
      exact fun x hx => hx
  | returnUrlToPool u =>
      exact fun x hx => hx
  | clearPool =>
      exact fun x hx => hx

/-- Visited-set monotonicity extends to arbitrary call sequences. -/
theorem TrackerOp.visited_mono_list (ops : List TrackerOp) (t : URLTracker) :
    t.visitedUrls ⊆ (TrackerOp.applyList ops t).visitedUrls := by
  induction ops generalizing t with
  | nil => exact fun x hx => hx
  | cons op rest ih =>
      exact fun x hx => ih (op.apply t) (TrackerOp.visited_mono op t hx)

theorem URLTracker.add_to_pool_of_visited (t : URLTracker) (u : String)
    (h : u ∈ t.visitedUrls) : t.add_to_pool u = t := by
  simp [URLTracker.add_to_pool, URLTracker.is_visited, h]

theorem URLTracker.add_to_pool_of_not_visited (t : URLTracker) (u : String)
    (h : u ∉ t.visitedUrls) :
    t.add_to_pool u = { t with urlPool := t.urlPool ++ [u] } := by
  simp [URLTracker.add_to_pool, URLTracker.is_visited, h]

theorem URLTracker.add_bulk_drop_visited (t : URLTracker) (u : String)
    (h : u ∈ t.visitedUrls) (urls : List String) :
    t.add_bulk_to_pool urls = t.add_bulk_to_pool (urls.filter (fun v => v ≠ u)) := by
  have hfilter : ∀ l : List String,
      l.filter (fun v => decide (v ∉ t.visitedUrls)) =
        (l.filter (fun v => v ≠ u)).filter (fun v => decide (v ∉ t.visitedUrls)) := by
    intro l
    rw [List.filter_filter]
    apply List.filter_congr
    intro x hx
    by_cases hxu : x = u
    · subst hxu
      simp [h]
    · simp [hxu]
  simp only [URLTracker.add_bulk_to_pool]
  rw [hfilter urls]

/-- When every attempt fails, the loop starting at `attempt` with
`remaining ≥ 1` iterations performs exactly `remaining` attempts, sleeps
`d * 2 ^ i` for `i = attempt, …, attempt + remaining - 2`, and re-raises. -/
theorem fetchPageLoop_all_fail {α : Type} (attemptResult : ℕ → Option α)
    (d : ℕ) (hfail : ∀ i, attemptResult i = none) :
    ∀ remaining attempt, 1 ≤ remaining →
      fetchPageLoop attemptResult d attempt remaining =
        ⟨((List.range (remaining - 1)).map (fun i => d * 2 ^ (attempt + i))),
          remaining, none⟩ := by
  intro remaining
  induction remaining with
  | zero => intro _ h; omega
  | succ n ih =>
      intro attempt _
      rw [fetchPageLoop, hfail attempt]
      by_cases hn : n = 0
      · subst hn
        simp
      · have h1 : 1 ≤ n := Nat.one_le_iff_ne_zero.mpr hn
        have hd : (List.range (n + 1 - 1)).map (fun i => d * 2 ^ (attempt + i)) =
            d * 2 ^ attempt ::
              (List.range (n - 1)).map (fun i => d * 2 ^ (attempt + 1 + i)) := by
          have hn' : n + 1 - 1 = (n - 1) + 1 := by omega
          rw [hn', List.range_succ_eq_map, List.map_cons, List.map_map]
          simp
          intro a _
          exact Or.inl (by omega)
        simp only [if_neg hn, ih (attempt + 1) h1, hd]

/-! ## Character-level lemmas for the normalization proofs -/

theorem char_eq_iff_toNat {c d : Char} : c = d ↔ c.toNat = d.toNat :=
  ⟨fun h => by rw [h], fun h => Char.ext (UInt32.ext h)⟩

theorem char_le_iff_toNat {c d : Char} : c ≤ d ↔ c.toNat ≤ d.toNat := by
  rw [Char.le_def, UInt32.le_def]
  exact Iff.rfl

theorem toNat_ofNat_valid (n : ℕ) (h : n < 55296) : (Char.ofNat n).toNat = n := by
  have hv : n.isValidChar := by
    unfold Nat.isValidChar
    left
    omega
  rw [Char.ofNat, dif_pos hv]
  simp [Char.ofNatAux, Char.toNat, UInt32.toNat, BitVec.toNat_ofNat]

theorem upper_cond_iff (c : Char) :
    ('A' ≤ c && c ≤ 'Z') = true ↔ (65 ≤ c.toNat ∧ c.toNat ≤ 90) := by
  simp only [Bool.and_eq_true, decide_eq_true_eq, char_le_iff_toNat]
  exact Iff.rfl

theorem toNat_pyLowerChar (c : Char) :
    (pyLowerChar c).toNat =
      if 65 ≤ c.toNat ∧ c.toNat ≤ 90 then c.toNat + 32 else c.toNat := by
  unfold pyLowerChar
  by_cases h : 65 ≤ c.toNat ∧ c.toNat ≤ 90
  · rw [if_pos ((upper_cond_iff c).mpr h), if_pos h]
    exact toNat_ofNat_valid _ (by omega)
  · rw [if_neg (fun hb => h ((upper_cond_iff c).mp hb)), if_neg h]

theorem pyLowerChar_idem (c : Char) : pyLowerChar (pyLowerChar c) = pyLowerChar c := by
  rw [char_eq_iff_toNat, toNat_pyLowerChar, toNat_pyLowerChar]
  split_ifs <;> omega

/-- Lowering cannot produce a character that is neither a lowercase ASCII
letter nor unchanged: if the result is some non-letter `d`, the input was
already `d`.  (Used with `d` among `: / ? # ; \t \r \n` and space.) -/
theorem pyLowerChar_eq_of_not_lower_letter {c d : Char}
    (hd : d.toNat < 97 ∨ 122 < d.toNat) (h : pyLowerChar c = d) : c = d := by
  rw [char_eq_iff_toNat] at h ⊢
  rw [toNat_pyLowerChar] at h
  by_cases hc : 65 ≤ c.toNat ∧ c.toNat ≤ 90
  · rw [if_pos hc] at h
    omega
  · rwa [if_neg hc] at h

/-- Lowering never moves a character into the uppercase ASCII range, so
`pyLowerChar` output is a fixed point of `pyLowerChar`. -/
theorem pyLowerChar_fixed_iff (c : Char) :
    pyLowerChar c = c ↔ ¬(65 ≤ c.toNat ∧ c.toNat ≤ 90) := by
  constructor
  · intro h hc
    rw [char_eq_iff_toNat, toNat_pyLowerChar, if_pos hc] at h
    omega
  · intro hc
    rw [char_eq_iff_toNat, toNat_pyLowerChar, if_neg hc]

theorem toNat_char_lower_a : ('a' : Char).toNat = 97 := rfl

theorem toNat_char_lower_z : ('z' : Char).toNat = 122 := rfl

theorem toNat_char_upper_a : ('A' : Char).toNat = 65 := rfl

theorem toNat_char_upper_z : ('Z' : Char).toNat = 90 := rfl

theorem toNat_char_zero : ('0' : Char).toNat = 48 := rfl

theorem toNat_char_nine : ('9' : Char).toNat = 57 := rfl

theorem toNat_char_plus : ('+' : Char).toNat = 43 := rfl

theorem toNat_char_minus : ('-' : Char).toNat = 45 := rfl

theorem toNat_char_dot : ('.' : Char).toNat = 46 := rfl

theorem toNat_char_colon : (':' : Char).toNat = 58 := rfl

theorem toNat_char_slash : ('/' : Char).toNat = 47 := rfl

theorem toNat_char_question : ('?' : Char).toNat = 63 := rfl

theorem toNat_char_hash : ('#' : Char).toNat = 35 := rfl

theorem toNat_char_tab : ('\t' : Char).toNat = 9 := rfl

theorem toNat_char_cr : ('\r' : Char).toNat = 13 := rfl

theorem toNat_char_lf : ('\n' : Char).toNat = 10 := rfl

theorem toNat_char_semicolon : (';' : Char).toNat = 59 := rfl

theorem isSchemeChar_iff (c : Char) :
    isSchemeChar c = true ↔
      (97 ≤ c.toNat ∧ c.toNat ≤ 122) ∨ (65 ≤ c.toNat ∧ c.toNat ≤ 90) ∨
        (48 ≤ c.toNat ∧ c.toNat ≤ 57) ∨ c.toNat = 43 ∨ c.toNat = 45 ∨ c.toNat = 46 := by
  unfold isSchemeChar
  simp only [Bool.or_eq_true, Bool.and_eq_true, decide_eq_true_eq,
    char_le_iff_toNat, char_eq_iff_toNat, toNat_char_lower_a, toNat_char_lower_z,
    toNat_char_upper_a, toNat_char_upper_z, toNat_char_zero, toNat_char_nine,
    toNat_char_plus, toNat_char_minus, toNat_char_dot]
  omega

theorem isAsciiAlpha_iff (c : Char) :
    isAsciiAlpha c = true ↔
      (97 ≤ c.toNat ∧ c.toNat ≤ 122) ∨ (65 ≤ c.toNat ∧ c.toNat ≤ 90) := by
  unfold isAsciiAlpha
  simp only [Bool.or_eq_true, Bool.and_eq_true, decide_eq_true_eq, char_le_iff_toNat,
    toNat_char_lower_a, toNat_char_lower_z, toNat_char_upper_a, toNat_char_upper_z]

theorem isNetlocDelim_iff (c : Char) :
    isNetlocDelim c = true ↔ c.toNat = 47 ∨ c.toNat = 63 ∨ c.toNat = 35 := by
  unfold isNetlocDelim
  simp only [Bool.or_eq_true, decide_eq_true_eq, char_eq_iff_toNat,
    toNat_char_slash, toNat_char_question, toNat_char_hash]
  omega

theorem isUnsafeUrlChar_iff (c : Char) :
    isUnsafeUrlChar c = true ↔ c.toNat = 9 ∨ c.toNat = 13 ∨ c.toNat = 10 := by
  unfold isUnsafeUrlChar
  simp only [Bool.or_eq_true, decide_eq_true_eq, char_eq_iff_toNat,
    toNat_char_tab, toNat_char_cr, toNat_char_lf]
  omega

theorem isC0OrSpace_iff (c : Char) : isC0OrSpace c = true ↔ c.toNat ≤ 32 := by
  unfold isC0OrSpace
  simp only [decide_eq_true_eq]

theorem isSchemeChar_pyLowerChar {c : Char} (h : isSchemeChar c = true) :
    isSchemeChar (pyLowerChar c) = true := by
  rw [isSchemeChar_iff] at h ⊢
  rw [toNat_pyLowerChar]
  split_ifs <;> omega

theorem isAsciiAlpha_pyLowerChar {c : Char} (h : isAsciiAlpha c = true) :
    isAsciiAlpha (pyLowerChar c) = true := by
  rw [isAsciiAlpha_iff] at h ⊢
  rw [toNat_pyLowerChar]
  split_ifs <;> omega

theorem isSchemeChar_ne_colon {c : Char} (h : isSchemeChar c = true) : c ≠ ':' := by
  rw [isSchemeChar_iff] at h
  rw [Ne, char_eq_iff_toNat, toNat_char_colon]
  omega

theorem isSchemeChar_not_c0 {c : Char} (h : isSchemeChar c = true) :
    isC0OrSpace c = false := by
  rw [isSchemeChar_iff] at h
  rw [Bool.eq_false_iff, Ne, isC0OrSpace_iff]
  omega

theorem isSchemeChar_not_unsafe {c : Char} (h : isSchemeChar c = true) :
    isUnsafeUrlChar c = false := by
  rw [isSchemeChar_iff] at h
  rw [Bool.eq_false_iff, Ne, isUnsafeUrlChar_iff]
  omega

theorem isAsciiAlpha_isSchemeChar {c : Char} (h : isAsciiAlpha c = true) :
    isSchemeChar c = true := by
  rw [isAsciiAlpha_iff] at h
  rw [isSchemeChar_iff]
  omega

theorem allLower_pyLower (s : List Char) : AllLower (pyLower s) := by
  intro c hc
  obtain ⟨c₀, _, rfl⟩ := List.mem_map.mp hc
  exact pyLowerChar_idem c₀

theorem pyLower_eq_self {l : List Char} (h : AllLower l) : pyLower l = l := by
  induction l with
  | nil => rfl
  | cons c cs ih =>
      have hc : pyLowerChar c = c := h c (List.mem_cons_self c cs)
      have hcs : AllLower cs := fun x hx => h x (List.mem_cons_of_mem c hx)
      simp [pyLower] at ih ⊢
      exact ⟨hc, ih hcs⟩

theorem allLower_mono {l l' : List Char} (h : AllLower l)
    (hsub : ∀ c ∈ l', c ∈ l) : AllLower l' :=
  fun c hc => h c (hsub c hc)

theorem not_mem_pyLower {l : List Char} {d : Char}
    (hd : d.toNat < 97 ∨ 122 < d.toNat) (h : d ∉ l) : d ∉ pyLower l := by
  intro hmem
  obtain ⟨c₀, hc₀, heq⟩ := List.mem_map.mp hmem
  exact h (pyLowerChar_eq_of_not_lower_letter hd heq ▸ hc₀)

theorem takeWhile_append_cons {p : Char → Bool} {s rest : List Char} {x : Char}
    (hs : ∀ c ∈ s, p c = true) (hx : p x = false) :
    (s ++ x :: rest).takeWhile p = s ∧ (s ++ x :: rest).dropWhile p = x :: rest := by
  induction s with
  | nil =>
      simp [List.takeWhile_cons, List.dropWhile_cons, hx]
  | cons c cs ih =>
      have hc : p c = true := hs c (List.mem_cons_self c cs)
      have hcs : ∀ d ∈ cs, p d = true := fun d hd => hs d (List.mem_cons_of_mem c hd)
      obtain ⟨ih1, ih2⟩ := ih hcs
      simp [List.takeWhile_cons, List.dropWhile_cons, hc, ih1, ih2]

theorem takeWhile_append_all {p : Char → Bool} {s t : List Char}
    (hs : ∀ c ∈ s, p c = true) :
    (s ++ t).takeWhile p = s ++ t.takeWhile p ∧ (s ++ t).dropWhile p = t.dropWhile p := by
  induction s with
  | nil => simp
  | cons c cs ih =>
      have hc : p c = true := hs c (List.mem_cons_self c cs)
      have hcs : ∀ d ∈ cs, p d = true := fun d hd => hs d (List.mem_cons_of_mem c hd)
      obtain ⟨ih1, ih2⟩ := ih hcs
      simp [List.takeWhile_cons, List.dropWhile_cons, hc, ih1, ih2]

theorem takeWhile_eq_self_of_all {p : Char → Bool} {l : List Char}
    (h : ∀ c ∈ l, p c = true) : l.takeWhile p = l ∧ l.dropWhile p = [] := by
  induction l with
  | nil => simp
  | cons c cs ih =>
      have hc : p c = true := h c (List.mem_cons_self c cs)
      have hcs : ∀ d ∈ cs, p d = true := fun d hd => h d (List.mem_cons_of_mem c hd)
      obtain ⟨ih1, ih2⟩ := ih hcs
      simp [List.takeWhile_cons, List.dropWhile_cons, hc, ih1, ih2]

theorem dropWhile_eq_self_of_head {p : Char → Bool} {l : List Char}
    (h : ∀ c, l.head? = some c → p c = false) : l.dropWhile p = l := by
  cases l with
  | nil => rfl
  | cons c cs =>
      rw [List.dropWhile_cons, h c rfl]
      simp

theorem head?_dropWhile_false {p : Char → Bool} {l : List Char} {a : Char}
    (h : (l.dropWhile p).head? = some a) : p a = false := by
  induction l with
  | nil => simp at h
  | cons c cs ih =>
      rw [List.dropWhile_cons] at h
      by_cases hc : p c = true
      · rw [if_pos hc] at h
        exact ih h
      · rw [if_neg hc] at h
        simp at h
        rw [← h]
        exact Bool.eq_false_iff.mpr hc

theorem lastSegSplit_append (p : List Char) :
    (lastSegSplit p).1 ++ (lastSegSplit p).2 = p := by
  induction p with
  | nil => rfl
  | cons c cs ih =>
      rw [lastSegSplit]
      by_cases hm : ('/' : Char) ∈ cs
      · simp only [if_pos hm]
        simpa using ih
      · simp only [if_neg hm]
        by_cases hc : c = '/'
        · simp [hc]
        · simp [hc]

theorem splitParams_fst_subset (p : List Char) :
    ∀ c ∈ (splitParams p).1, c ∈ p := by
  intro c hc
  unfold splitParams at hc
  by_cases h1 : (';' : Char) ∈ p
  · rw [if_pos h1] at hc
    by_cases h2 : ('/' : Char) ∈ p
    · rw [if_pos h2] at hc
      by_cases h3 : (';' : Char) ∈ (lastSegSplit p).2
      · rw [if_pos h3] at hc
        simp only [List.mem_append] at hc
        rcases hc with hc | hc
        · rw [← lastSegSplit_append p]
          exact List.mem_append.mpr (Or.inl hc)
        · rw [← lastSegSplit_append p]
          exact List.mem_append.mpr
            (Or.inr ((List.takeWhile_sublist _).subset hc))
      · rw [if_neg h3] at hc
        exact hc
    · rw [if_neg h2] at hc
      exact (List.takeWhile_sublist _).subset hc
  · rw [if_neg h1] at hc
    exact hc

theorem splitParams_of_not_mem {p : List Char} (h : (';' : Char) ∉ p) :
    splitParams p = (p, []) := by
  unfold splitParams
  rw [if_neg h]

theorem splitAtFirst_of_not_mem {ch : Char} {l : List Char} (h : ch ∉ l) :
    splitAtFirst ch l = (l, []) := by
  have hall : ∀ c ∈ l, (fun c => decide (c ≠ ch)) c = true := by
    intro c hc
    simp only [decide_eq_true_eq]
    intro heq
    exact h (heq ▸ hc)
  obtain ⟨h1, h2⟩ := takeWhile_eq_self_of_all hall
  unfold splitAtFirst
  rw [h1, h2]

theorem splitAtFirst_fst_subset (ch : Char) (l : List Char) :
    ∀ c ∈ (splitAtFirst ch l).1, c ∈ l ∧ c ≠ ch := by
  intro c hc
  unfold splitAtFirst at hc
  refine ⟨(List.takeWhile_sublist _).subset hc, ?_⟩
  have := List.mem_takeWhile_imp hc
  simpa using this

theorem splitScheme_concat {S rest : List Char} (hne : S ≠ [])
    (halpha : isAsciiAlpha S.headI = true)
    (hscheme : ∀ x ∈ S, isSchemeChar x = true)
    (hlow : AllLower S) :
    splitScheme (S ++ ':' :: rest) = (S, rest) := by
  obtain ⟨c, S', rfl⟩ := List.exists_cons_of_ne_nil hne
  have hall : ∀ x ∈ c :: S', (fun x => decide (x ≠ ':')) x = true := by
    intro x hx
    simp only [decide_eq_true_eq]
    exact isSchemeChar_ne_colon (hscheme x hx)
  have hcolon : (fun x => decide (x ≠ ':')) ':' = false := by simp
  obtain ⟨h1, h2⟩ := takeWhile_append_cons hall hcolon
  unfold splitScheme
  rw [h1, h2]
  simp only [List.headI_cons] at halpha
  have hmap : (c :: S').map pyLowerChar = c :: S' := pyLower_eq_self hlow
  have hcond : (isAsciiAlpha c && (c :: S').all isSchemeChar) = true := by
    rw [Bool.and_eq_true, List.all_eq_true]
    exact ⟨halpha, hscheme⟩
  simp [hcond, hmap]
  exact ⟨halpha, hscheme c (List.mem_cons_self c S'),
    fun x hx => hscheme x (List.mem_cons_of_mem c hx)⟩

theorem splitScheme_cases (url : List Char) :
    (splitScheme url = ([], url)) ∨
      (∃ before rest, url = before ++ ':' :: rest ∧
        splitScheme url = (before.map pyLowerChar, rest) ∧
        before ≠ [] ∧ isAsciiAlpha before.headI = true ∧
        ∀ x ∈ before, isSchemeChar x = true) := by
  unfold splitScheme
  rcases hd : url.dropWhile (fun c => decide (c ≠ ':')) with _ | ⟨x, rest⟩
  · exact Or.inl rfl
  · have hx : x = ':' := by
      have := head?_dropWhile_false (p := fun c => decide (c ≠ ':')) (l := url)
        (a := x) (by rw [hd]; rfl)
      simpa using this
    subst hx
    have hsplit : url.takeWhile (fun c => decide (c ≠ ':')) ++ ':' :: rest = url := by
      rw [← hd]
      exact List.takeWhile_append_dropWhile _ _
    rcases hb : url.takeWhile (fun c => decide (c ≠ ':')) with _ | ⟨c, bs⟩
    · exact Or.inl rfl
    · by_cases hcond : (isAsciiAlpha c && (c :: bs).all isSchemeChar) = true
      · refine Or.inr ⟨c :: bs, rest, ?_, ?_, by simp, ?_, ?_⟩
        · rw [← hsplit, hb]
        · simp [hcond]
          rw [Bool.and_eq_true, List.all_eq_true] at hcond
          exact ⟨hcond.1, hcond.2 c (List.mem_cons_self c bs),
            fun x hx => hcond.2 x (List.mem_cons_of_mem c hx)⟩
        · rw [Bool.and_eq_true] at hcond
          simpa using hcond.1
        · rw [Bool.and_eq_true, List.all_eq_true] at hcond
          exact hcond.2
      · left
        rw [Bool.not_eq_true] at hcond
        simp [hcond]
        intro ha hc
        by_contra hno
        push_neg at hno
        have hall : (isAsciiAlpha c && (c :: bs).all isSchemeChar) = true := by
          rw [Bool.and_eq_true, List.all_eq_true]
          refine ⟨ha, ?_⟩
          intro x hx
          rcases List.mem_cons.mp hx with rfl | hx
          · exact hc
          · cases hbx : isSchemeChar x with
            | false => exact absurd hbx (hno x hx)
            | true => rfl
        rw [hall] at hcond
        exact absurd hcond (by simp)

theorem rstripSlash_reverse (p : List Char) :
    (rstripSlash p).reverse = p.reverse.dropWhile (fun c => decide (c = '/')) := by
  unfold rstripSlash
  rw [List.reverse_reverse]

theorem rstripSlash_subset (p : List Char) : ∀ c ∈ rstripSlash p, c ∈ p := by
  intro c hc
  have : c ∈ (rstripSlash p).reverse := List.mem_reverse.mpr hc
  rw [rstripSlash_reverse] at this
  exact List.mem_reverse.mp ((List.dropWhile_sublist _).subset this)

theorem rstripSlash_no_trailing (p : List Char) :
    ∀ c, (rstripSlash p).reverse.head? = some c → c ≠ '/' := by
  intro c hc
  rw [rstripSlash_reverse] at hc
  have := head?_dropWhile_false hc
  simpa using this

theorem rstripSlash_eq_self {p : List Char}
    (h : ∀ c, p.reverse.head? = some c → c ≠ '/') : rstripSlash p = p := by
  unfold rstripSlash
  rw [dropWhile_eq_self_of_head, List.reverse_reverse]
  intro c hc
  simpa using h c hc

/-! ## Component properties of `urlparseList` -/

theorem clean_subset (l : List Char) :
    ∀ x ∈ (l.dropWhile isC0OrSpace).filter (fun c => !isUnsafeUrlChar c),
      x ∈ l ∧ isUnsafeUrlChar x = false := by
  intro x hx
  rw [List.mem_filter] at hx
  exact ⟨(List.dropWhile_sublist _).subset hx.1, by simpa using hx.2⟩

theorem splitScheme_snd_subset (u : List Char) :
    ∀ x ∈ (splitScheme u).2, x ∈ u := by
  rcases splitScheme_cases u with h | ⟨before, rest, heq, hval, _⟩
  · rw [h]
    exact fun x hx => hx
  · rw [hval]
    intro x hx
    rw [heq]
    simp only [List.mem_append, List.mem_cons]
    exact Or.inr (Or.inr hx)

theorem splitNetloc_fst_props (u : List Char) :
    ∀ c ∈ (splitNetloc u).1, isNetlocDelim c = false ∧ c ∈ u := by
  intro c hc
  unfold splitNetloc at hc
  by_cases h2 : u.take 2 = ['/', '/']
  · rw [if_pos h2] at hc
    refine ⟨by simpa using List.mem_takeWhile_imp hc, ?_⟩
    exact (List.drop_sublist 2 u).subset ((List.takeWhile_sublist _).subset hc)
  · rw [if_neg h2] at hc
    simp at hc

theorem splitNetloc_snd_subset (u : List Char) :
    ∀ c ∈ (splitNetloc u).2, c ∈ u := by
  intro c hc
  unfold splitNetloc at hc
  by_cases h2 : u.take 2 = ['/', '/']
  · rw [if_pos h2] at hc
    exact (List.drop_sublist 2 u).subset ((List.dropWhile_sublist _).subset hc)
  · rw [if_neg h2] at hc
    exact hc

theorem urlparseList_netloc_props (l : List Char) :
    ∀ c ∈ (urlparseList l).netloc,
      isNetlocDelim c = false ∧ c ∈ l ∧ isUnsafeUrlChar c = false := by
  intro c hc
  unfold urlparseList at hc
  simp only at hc
  obtain ⟨hdelim, hmem⟩ := splitNetloc_fst_props _ c hc
  have hmem2 := splitScheme_snd_subset _ c hmem
  obtain ⟨h1, h2⟩ := clean_subset l c hmem2
  exact ⟨hdelim, h1, h2⟩

theorem urlparseList_path_props (l : List Char) :
    ∀ c ∈ (urlparseList l).path,
      c ≠ '#' ∧ c ≠ '?' ∧ c ∈ l ∧ isUnsafeUrlChar c = false := by
  intro c hc
  unfold urlparseList at hc
  simp only at hc
  have hq := splitParams_fst_subset _ c hc
  obtain ⟨hf, hq2⟩ := splitAtFirst_fst_subset '?' _ c hq
  obtain ⟨hn, hh⟩ := splitAtFirst_fst_subset '#' _ c hf
  have hmem := splitNetloc_snd_subset _ c hn
  have hmem2 := splitScheme_snd_subset _ c hmem
  obtain ⟨h1, h2⟩ := clean_subset l c hmem2
  exact ⟨hh, hq2, h1, h2⟩

theorem urlparseList_scheme_props (l : List Char) :
    (urlparseList l).scheme = [] ∨
      ((urlparseList l).scheme ≠ [] ∧
        isAsciiAlpha (urlparseList l).scheme.headI = true ∧
        (∀ c ∈ (urlparseList l).scheme, isSchemeChar c = true) ∧
        AllLower (urlparseList l).scheme) := by
  have hform : (urlparseList l).scheme =
      (splitScheme ((l.dropWhile isC0OrSpace).filter (fun c => !isUnsafeUrlChar c))).1 := rfl
  rcases splitScheme_cases ((l.dropWhile isC0OrSpace).filter (fun c => !isUnsafeUrlChar c)) with
    h | ⟨before, rest, heq, hval, hne, halpha, hscheme⟩
  · left
    rw [hform, h]
  · right
    rw [hform, hval]
    obtain ⟨b0, bs, rfl⟩ := List.exists_cons_of_ne_nil hne
    refine ⟨by simp, ?_, ?_, ?_⟩
    · simp only [List.map_cons, List.headI_cons]
      simp only [List.headI_cons] at halpha
      exact isAsciiAlpha_pyLowerChar halpha
    · intro c hcm
      obtain ⟨c0, hc0, rfl⟩ := List.mem_map.mp hcm
      exact isSchemeChar_pyLowerChar (hscheme c0 hc0)
    · intro c hcm
      obtain ⟨c0, hc0, rfl⟩ := List.mem_map.mp hcm
      exact pyLowerChar_idem c0

/-! ## Idempotence of `normalize_url` on semicolon-free input -/

theorem normalizeList_reconstruct
    (S N P : List Char)
    (hS_ne : S ≠ [])
    (hS_alpha : isAsciiAlpha S.headI = true)
    (hS_scheme : ∀ c ∈ S, isSchemeChar c = true)
    (hS_low : AllLower S)
    (hN_delim : ∀ c ∈ N, isNetlocDelim c = false)
    (hN_clean : ∀ c ∈ N, isUnsafeUrlChar c = false)
    (hN_low : AllLower N)
    (hP_hash : ∀ c ∈ P, c ≠ '#')
    (hP_q : ∀ c ∈ P, c ≠ '?')
    (hP_semi : (';' : Char) ∉ P)
    (hP_clean : ∀ c ∈ P, isUnsafeUrlChar c = false)
    (hP_low : AllLower P)
    (hP_last : ∀ c, P.reverse.head? = some c → c ≠ '/') :
    normalizeList (S ++ "://".data ++ N ++ P) = S ++ "://".data ++ N ++ P := by
  set P1 := P.takeWhile (fun c => !isNetlocDelim c) with hP1
  set P2 := P.dropWhile (fun c => !isNetlocDelim c) with hP2
  have hP12 : P1 ++ P2 = P := List.takeWhile_append_dropWhile _ _
  have hP2sub : ∀ c ∈ P2, c ∈ P := fun c hc => (List.dropWhile_sublist _).subset hc
  have hR : S ++ "://".data ++ N ++ P = S ++ ':' :: '/' :: '/' :: (N ++ P) := by
    simp [List.append_assoc]
  have hmemR : ∀ c ∈ S ++ "://".data ++ N ++ P,
      c ∈ S ∨ (c = ':' ∨ c = '/') ∨ c ∈ N ∨ c ∈ P := by
    intro c hc
    rw [hR] at hc
    simp only [List.mem_append, List.mem_cons] at hc
    rcases hc with h | h | h | h | h
    · exact Or.inl h
    · exact Or.inr (Or.inl (Or.inl h))
    · exact Or.inr (Or.inl (Or.inr h))
    · exact Or.inr (Or.inl (Or.inr h))
    · rcases h with h | h
      · exact Or.inr (Or.inr (Or.inl h))
      · exact Or.inr (Or.inr (Or.inr h))
  have hlowR : pyLower (S ++ "://".data ++ N ++ P) = S ++ "://".data ++ N ++ P := by
    apply pyLower_eq_self
    intro c hc
    rcases hmemR c hc with h | h | h | h
    · exact hS_low c h
    · rcases h with rfl | rfl
      · decide
      · decide
    · exact hN_low c h
    · exact hP_low c h
  have hdrop : (S ++ "://".data ++ N ++ P).dropWhile isC0OrSpace =
      S ++ "://".data ++ N ++ P := by
    apply dropWhile_eq_self_of_head
    intro c hc
    obtain ⟨s0, S', rfl⟩ := List.exists_cons_of_ne_nil hS_ne
    simp only [List.cons_append, List.head?_cons, Option.some.injEq] at hc
    rw [← hc]
    simp only [List.headI_cons] at hS_alpha
    exact isSchemeChar_not_c0 (isAsciiAlpha_isSchemeChar hS_alpha)
  have hfilt : (S ++ "://".data ++ N ++ P).filter (fun c => !isUnsafeUrlChar c) =
      S ++ "://".data ++ N ++ P := by
    rw [List.filter_eq_self]
    intro c hc
    simp only [Bool.not_eq_true']
    rcases hmemR c hc with h | h | h | h
    · exact isSchemeChar_not_unsafe (hS_scheme c h)
    · rcases h with rfl | rfl
      · decide
      · decide
    · exact hN_clean c h
    · exact hP_clean c h
  have hschemeR : splitScheme (S ++ "://".data ++ N ++ P) =
      (S, '/' :: '/' :: (N ++ P)) := by
    rw [hR]
    exact splitScheme_concat hS_ne hS_alpha hS_scheme hS_low
  have hnet : splitNetloc ('/' :: '/' :: (N ++ P)) = (N ++ P1, P2) := by
    unfold splitNetloc
    rw [if_pos (by simp)]
    simp only [List.drop_succ_cons, List.drop_zero]
    have hNall : ∀ c ∈ N, (fun c => !isNetlocDelim c) c = true := by
      intro c hc
      simp [hN_delim c hc]
    obtain ⟨h1, h2⟩ := takeWhile_append_all (t := P) hNall
    rw [h1, h2]
  have hhash : splitAtFirst '#' P2 = (P2, []) := by
    apply splitAtFirst_of_not_mem
    intro hmem
    exact hP_hash '#' (hP2sub _ hmem) rfl
  have hquery : splitAtFirst '?' P2 = (P2, []) := by
    apply splitAtFirst_of_not_mem
    intro hmem
    exact hP_q '?' (hP2sub _ hmem) rfl
  have hparams : splitParams P2 = (P2, []) := by
    apply splitParams_of_not_mem
    intro hmem
    exact hP_semi (hP2sub _ hmem)
  have hparse : urlparseList (S ++ "://".data ++ N ++ P) =
      ⟨S, N ++ P1, P2, [], [], []⟩ := by
    unfold urlparseList
    simp only [hdrop, hfilt, hschemeR, hnet, hhash, hquery, hparams]
  have hstrip : rstripSlash P2 = P2 := by
    apply rstripSlash_eq_self
    intro c hc
    rcases hP2e : P2 with _ | ⟨x, xs⟩
    · rw [hP2e] at hc
      simp at hc
    · have hP2rev : P2.reverse ≠ [] := by
        rw [hP2e]
        simp
      have hPrev : P.reverse.head? = P2.reverse.head? := by
        rw [← hP12, List.reverse_append]
        exact List.head?_append_of_ne_nil _ hP2rev
      rw [hP2e] at hc
      apply hP_last c
      rw [hPrev, hP2e]
      exact hc
  unfold normalizeList
  rw [hlowR, hparse]
  simp only [if_neg hS_ne]
  rw [hstrip]
  conv_rhs => rw [← hP12]
  simp [List.append_assoc]

theorem normalizeList_idem (l0 : List Char) (hsemi : (';' : Char) ∉ l0) :
    normalizeList (normalizeList l0) = normalizeList l0 := by
  have hsl : (';' : Char) ∉ pyLower l0 := by
    apply not_mem_pyLower _ hsemi
    left
    decide
  have hlowl : AllLower (pyLower l0) := allLower_pyLower l0
  have hform : normalizeList l0 =
      (if (urlparseList (pyLower l0)).scheme = [] then "https".data
        else (urlparseList (pyLower l0)).scheme) ++ "://".data ++
        (urlparseList (pyLower l0)).netloc ++
        rstripSlash (urlparseList (pyLower l0)).path := rfl
  have hNp := urlparseList_netloc_props (pyLower l0)
  have hPp := urlparseList_path_props (pyLower l0)
  have hPsub : ∀ c ∈ rstripSlash (urlparseList (pyLower l0)).path,
      c ∈ (urlparseList (pyLower l0)).path := rstripSlash_subset _
  rw [hform]
  apply normalizeList_reconstruct
  case hS_ne =>
    rcases urlparseList_scheme_props (pyLower l0) with h | ⟨h, _, _, _⟩
    · rw [if_pos h]
      decide
    · rw [if_neg h]
      exact h
  case hS_alpha =>
    rcases urlparseList_scheme_props (pyLower l0) with h | ⟨h, ha, _, _⟩
    · rw [if_pos h]
      decide
    · rw [if_neg h]
      exact ha
  case hS_scheme =>
    rcases urlparseList_scheme_props (pyLower l0) with h | ⟨h, _, hs, _⟩
    · rw [if_pos h]
      decide
    · rw [if_neg h]
      exact hs
  case hS_low =>
    rcases urlparseList_scheme_props (pyLower l0) with h | ⟨h, _, _, hl⟩
    · rw [if_pos h]
      intro c hc
      simp only [show "https".data = ['h', 't', 't', 'p', 's'] from rfl,
        List.mem_cons, List.not_mem_nil, or_false] at hc
      rcases hc with rfl | rfl | rfl | rfl | rfl <;> decide
    · rw [if_neg h]
      exact hl
  case hN_delim =>
    exact fun c hc => (hNp c hc).1
  case hN_clean =>
    exact fun c hc => (hNp c hc).2.2
  case hN_low =>
    exact fun c hc => hlowl c (hNp c hc).2.1
  case hP_hash =>
    exact fun c hc => (hPp c (hPsub c hc)).1
  case hP_q =>
    exact fun c hc => (hPp c (hPsub c hc)).2.1
  case hP_semi =>
    intro hmem
    exact hsl (hPp _ (hPsub _ hmem)).2.2.1
  case hP_clean =>
    exact fun c hc => (hPp c (hPsub c hc)).2.2.2
  case hP_low =>
    exact fun c hc => hlowl c (hPp c (hPsub c hc)).2.2.1
  case hP_last =>
    exact rstripSlash_no_trailing _

theorem normalize_url_idem_of_no_semicolon (u : String)
    (h : (';' : Char) ∉ u.data) :
    normalize_url (normalize_url u) = normalize_url u :=
  congrArg String.mk (normalizeList_idem u.data h)

/-! ## Lemmas about the scrape loop -/

theorem mem_insertSorted {a s : String} {l : List String} :
    a ∈ insertSorted s l ↔ a = s ∨ a ∈ l := by
  induction l with
  | nil => simp [insertSorted]
  | cons x xs ih =>
      unfold insertSorted
      by_cases h : charListLe s.data x.data = true
      · simp [h]
      · simp only [Bool.not_eq_true] at h
        simp only [h, Bool.false_eq_true, if_false, List.mem_cons, ih]
        tauto

theorem mem_sortStrings {a : String} {l : List String} :
    a ∈ sortStrings l ↔ a ∈ l := by
  induction l with
  | nil => simp [sortStrings]
  | cons x xs ih =>
      unfold sortStrings
      rw [mem_insertSorted, ih, List.mem_cons]

theorem lookup_append_of_some {k : String} {v : PageRecord}
    {l1 l2 : List (String × PageRecord)} (h : l1.lookup k = some v) :
    (l1 ++ l2).lookup k = some v := by
  induction l1 with
  | nil => simp [List.lookup] at h
  | cons p rest ih =>
      rw [List.cons_append, List.lookup_cons]
      rw [List.lookup_cons] at h
      by_cases hk : (k == p.1) = true
      · rw [hk] at h ⊢
        exact h
      · rw [Bool.not_eq_true] at hk
        rw [hk] at h ⊢
        exact ih h

theorem lookup_append_of_none {k : String}
    {l1 l2 : List (String × PageRecord)} (h : l1.lookup k = none) :
    (l1 ++ l2).lookup k = l2.lookup k := by
  induction l1 with
  | nil => simp
  | cons p rest ih =>
      rw [List.cons_append, List.lookup_cons]
      rw [List.lookup_cons] at h
      by_cases hk : (k == p.1) = true
      · rw [hk] at h
        exact absurd h (by simp)
      · rw [Bool.not_eq_true] at hk
        rw [hk] at h ⊢
        exact ih h

/-- Shape of one loop iteration: results only grow, by records keyed with
base-prefixed urls; the queue is the popped tail plus possibly freshly
enqueued urls, each of depth ≥ 1 and base-prefixed; the visited set only
grows. -/
theorem scrapeStep_shape (env : ScrapeEnv) (b : String) (m i : ℕ)
    (s : ScrapeState) :
    ∃ extraR extraQ rest,
      (scrapeStep env b m i s).results = s.results ++ extraR ∧
      (scrapeStep env b m i s).urlsToProcess = rest ++ extraQ ∧
      (s.urlsToProcess = [] ∧ rest = [] ∨ ∃ u d, s.urlsToProcess = (u, d) :: rest) ∧
      s.visited ⊆ (scrapeStep env b m i s).visited ∧
      (∀ k r, (k, r) ∈ extraR → pyStartsWith k b = true) ∧
      (∀ u d, (u, d) ∈ extraQ → 1 ≤ d ∧ pyStartsWith u b = true) := by
  rcases hq : s.urlsToProcess with _ | ⟨⟨current_url, depth⟩, rest⟩
  · refine ⟨[], [], [], ?_, ?_, Or.inl ⟨rfl, rfl⟩, ?_, by simp, by simp⟩
    · rw [scrapeStep, hq]
      simp [hq]
    · rw [scrapeStep, hq]
      simp [hq]
    · rw [scrapeStep, hq]
  · rw [scrapeStep, hq]
    dsimp only
    by_cases hpre : ¬ pyStartsWith (normalize_url current_url) b = true
    · rw [if_pos hpre]
      exact ⟨[], [], rest, by simp, by simp, Or.inr ⟨_, _, rfl⟩, fun x hx => hx,
        by simp, by simp⟩
    · rw [if_neg hpre]
      rw [not_not] at hpre
      by_cases hdup : normalize_url current_url ∈ s.processedUrls ∨
          normalize_url current_url ∈ s.errorUrls
      · rw [if_pos hdup]
        exact ⟨[], [], rest, by simp, by simp, Or.inr ⟨_, _, rfl⟩, fun x hx => hx,
          by simp, by simp⟩
      · rw [if_neg hdup]
        by_cases hvis : normalize_url current_url ∈ s.visited
        · rw [if_pos hvis]
          exact ⟨[], [], rest, by simp, by simp, Or.inr ⟨_, _, rfl⟩, fun x hx => hx,
            by simp, by simp⟩
        · rw [if_neg hvis]
          by_cases hsusp : (is_suspicious_url current_url &&
              env.imageHead current_url) = true
          · rw [if_pos hsusp]
            exact ⟨[], [], rest, by simp, by simp, Or.inr ⟨_, _, rfl⟩,
              fun x hx => hx, by simp, by simp⟩
          · rw [if_neg hsusp]
            rcases hfault : env.tryFault current_url with _ | fault
            · dsimp only
              by_cases hdep : depth < m
              · rw [if_pos hdep]
                refine ⟨[(normalize_url current_url,
                    .full (process_page env.oracles (env.fetch current_url) i
                        current_url).2.2.2.1
                      (process_page env.oracles (env.fetch current_url) i
                        current_url).2.2.1
                      (sortStrings ((List.map normalize_url
                        (process_page env.oracles (env.fetch current_url) i
                          current_url).2.2.2.2).dedup)))],
                  _, rest, rfl, rfl, Or.inr ⟨_, _, rfl⟩,
                  fun x hx => Finset.mem_insert_of_mem hx, ?_, ?_⟩
                · intro k r hm
                  simp only [List.mem_singleton, Prod.mk.injEq] at hm
                  rw [hm.1]
                  exact hpre
                · intro u d hm
                  obtain ⟨url, hurl, heq⟩ := List.mem_map.mp hm
                  obtain ⟨h1, h2⟩ := Prod.mk.injEq .. ▸ heq
                  refine ⟨by omega, ?_⟩
                  rw [← h1]
                  have hmem := mem_sortStrings.mp hurl
                  have hcond := (List.mem_filter.mp hmem).2
                  simp only [Bool.and_eq_true] at hcond
                  exact hcond.1.1
              · rw [if_neg hdep]
                refine ⟨[(normalize_url current_url,
                    .full (process_page env.oracles (env.fetch current_url) i
                        current_url).2.2.2.1
                      (process_page env.oracles (env.fetch current_url) i
                        current_url).2.2.1
                      (sortStrings ((List.map normalize_url
                        (process_page env.oracles (env.fetch current_url) i
                          current_url).2.2.2.2).dedup)))],
                  [], rest, rfl, by simp, Or.inr ⟨_, _, rfl⟩,
                  fun x hx => Finset.mem_insert_of_mem hx, ?_, by simp⟩
                intro k r hm
                simp only [List.mem_singleton, Prod.mk.injEq] at hm
                rw [hm.1]
                exact hpre
            · cases fault with
              | webDriver =>
                  exact ⟨[], [], rest, by simp, by simp, Or.inr ⟨_, _, rfl⟩,
                    fun x hx => hx, by simp, by simp⟩
              | generic msg =>
                  refine ⟨[(normalize_url current_url, .errorOnly msg)], [], rest,
                    rfl, by simp, Or.inr ⟨_, _, rfl⟩, fun x hx => hx, ?_, by simp⟩
                  intro k r hm
                  simp only [List.mem_singleton, Prod.mk.injEq] at hm
                  rw [hm.1]
                  exact hpre

theorem scrapeStep_results_prefix (env : ScrapeEnv) (b : String) (m i : ℕ)
    (s : ScrapeState) :
    ∃ extra, (scrapeStep env b m i s).results = s.results ++ extra := by
  obtain ⟨extraR, _, _, h, _⟩ := scrapeStep_shape env b m i s
  exact ⟨extraR, h⟩

theorem scrapeStep_visited_mono (env : ScrapeEnv) (b : String) (m i : ℕ)
    (s : ScrapeState) : s.visited ⊆ (scrapeStep env b m i s).visited := by
  obtain ⟨_, _, _, _, _, _, h, _⟩ := scrapeStep_shape env b m i s
  exact h

theorem scrapeRun_results_lookup_mono (env : ScrapeEnv) (b : String) (m i : ℕ)
    (fuel : ℕ) (s : ScrapeState) {k : String} {v : PageRecord}
    (h : s.results.lookup k = some v) :
    ((scrapeRun env b m i fuel s).results).lookup k = some v := by
  induction fuel generalizing s with
  | zero => exact h
  | succ n ih =>
      rw [scrapeRun]
      split
      · exact h
      · apply ih
        obtain ⟨extra, hx⟩ := scrapeStep_results_prefix env b m i s
        rw [hx]
        exact lookup_append_of_some h

theorem scrapeRun_visited_mono (env : ScrapeEnv) (b : String) (m i : ℕ)
    (fuel : ℕ) (s : ScrapeState) :
    s.visited ⊆ (scrapeRun env b m i fuel s).visited := by
  induction fuel generalizing s with
  | zero => exact fun x hx => hx
  | succ n ih =>
      rw [scrapeRun]
      split
      · exact fun x hx => hx
      · exact fun x hx => ih _ (scrapeStep_visited_mono env b m i s hx)

theorem scrapeStep_preserves_prefixed (env : ScrapeEnv) (b : String) (m i : ℕ)
    (s : ScrapeState)
    (h1 : ∀ k r, (k, r) ∈ s.results → pyStartsWith k b = true)
    (h2 : ∀ u d, (u, d) ∈ s.urlsToProcess → 1 ≤ d → pyStartsWith u b = true) :
    (∀ k r, (k, r) ∈ (scrapeStep env b m i s).results → pyStartsWith k b = true) ∧
      (∀ u d, (u, d) ∈ (scrapeStep env b m i s).urlsToProcess → 1 ≤ d →
        pyStartsWith u b = true) := by
  obtain ⟨extraR, extraQ, rest, hres, hqueue, hpop, _, hR, hQ⟩ :=
    scrapeStep_shape env b m i s
  have hrest : ∀ u d, (u, d) ∈ rest → 1 ≤ d → pyStartsWith u b = true := by
    rcases hpop with ⟨_, rfl⟩ | ⟨u0, d0, hq⟩
    · simp
    · intro u d hm hd
      exact h2 u d (by rw [hq]; exact List.mem_cons_of_mem _ hm) hd
  constructor
  · intro k r hm
    rw [hres] at hm
    rcases List.mem_append.mp hm with hm | hm
    · exact h1 k r hm
    · exact hR k r hm
  · intro u d hm hd
    rw [hqueue] at hm
    rcases List.mem_append.mp hm with hm | hm
    · exact hrest u d hm hd
    · exact (hQ u d hm).2

theorem scrapeRun_preserves_prefixed (env : ScrapeEnv) (b : String) (m i : ℕ)
    (fuel : ℕ) (s : ScrapeState)
    (h1 : ∀ k r, (k, r) ∈ s.results → pyStartsWith k b = true)
    (h2 : ∀ u d, (u, d) ∈ s.urlsToProcess → 1 ≤ d → pyStartsWith u b = true) :
    (∀ k r, (k, r) ∈ (scrapeRun env b m i fuel s).results →
        pyStartsWith k b = true) ∧
      (∀ u d, (u, d) ∈ (scrapeRun env b m i fuel s).urlsToProcess → 1 ≤ d →
        pyStartsWith u b = true) := by
  induction fuel generalizing s with
  | zero => exact ⟨h1, h2⟩
  | succ n ih =>
      rw [scrapeRun]
      split
      · exact ⟨h1, h2⟩
      · obtain ⟨g1, g2⟩ := scrapeStep_preserves_prefixed env b m i s h1 h2
        exact ih _ g1 g2

theorem process_page_fetch_none (o : ProcessOracles) (i : ℕ) (u : String) :
    process_page o none i u = (none, none, none, none, []) := rfl

/-- One iteration that reaches `process_page` on a url whose fetch has
terminally failed: the success path of the loop still runs, appending a
record whose metadata and content are `None` with no discovered urls, and
marking the url visited. -/
theorem scrapeStep_terminal_failure (env : ScrapeEnv) (b : String) (m i : ℕ)
    (s : ScrapeState) (u : String) (d : ℕ) (rest : List (String × ℕ))
    (hq : s.urlsToProcess = (u, d) :: rest)
    (hpre : pyStartsWith (normalize_url u) b = true)
    (hproc : normalize_url u ∉ s.processedUrls)
    (herr : normalize_url u ∉ s.errorUrls)
    (hvis : normalize_url u ∉ s.visited)
    (hsusp : (is_suspicious_url u && env.imageHead u) = false)
    (hfault : env.tryFault u = none)
    (hfetch : env.fetch u = none) :
    (scrapeStep env b m i s).results =
        s.results ++ [(normalize_url u, .full none none [])] ∧
      normalize_url u ∈ (scrapeStep env b m i s).visited := by
  rw [scrapeStep, hq]
  dsimp only
  rw [if_neg (not_not_intro hpre), if_neg (not_or.mpr ⟨hproc, herr⟩), if_neg hvis,
    if_neg (by simp [hsusp]), hfault]
  dsimp only
  rw [hfetch]
  exact ⟨rfl, Finset.mem_insert_self _ _⟩

/-! ## Claim-support definitions: concrete environments -/

theorem string_mk_inj {a b : List Char} : String.mk a = String.mk b ↔ a = b :=
  ⟨fun h => congrArg String.data h, fun h => congrArg String.mk h⟩

/-! ## Claim theorems -/

/-- C1 (counterexample): a crawl of a single url whose fetch fails
terminally does produce a Page Record and mark the url visited, but the
record's extracted-text/content field is `None` — not an error
description, as the claim states (`process_page` swallows the terminal
error and the success path of `scrape` stores its `None`s). -/
theorem C1_counterexample :
    ((scrapeRun envTerminalFailure "https://example.com" 0 0 1
        (ScrapeState.init "https://example.com")).results).lookup
        "https://example.com" = some (.full none none []) ∧
      (PageRecord.full none none []).contentField = none ∧
      "https://example.com" ∈ (scrapeRun envTerminalFailure "https://example.com"
        0 0 1 (ScrapeState.init "https://example.com")).visited := by
  decide

/-- C1 (amended): for every url the crawl attempts whose fetch fails
terminally, the run still records a Page Record for it — with metadata and
content both `None` and an empty discovered-url list, the error having
been logged only — and marks the url visited; both facts persist for the
rest of the run, so a completed run yields a result entry for every url it
attempted. -/
theorem C1_terminal_failure_recorded (env : ScrapeEnv) (b : String) (m i : ℕ)
    (s : ScrapeState) (u : String) (d : ℕ) (rest : List (String × ℕ))
    (hq : s.urlsToProcess = (u, d) :: rest)
    (hpre : pyStartsWith (normalize_url u) b = true)
    (hproc : normalize_url u ∉ s.processedUrls)
    (herr : normalize_url u ∉ s.errorUrls)
    (hvis : normalize_url u ∉ s.visited)
    (hsusp : (is_suspicious_url u && env.imageHead u) = false)
    (hfault : env.tryFault u = none)
    (hfetch : env.fetch u = none)
    (hlook : s.results.lookup (normalize_url u) = none) :
    ∀ fuel,
      ((scrapeRun env b m i fuel (scrapeStep env b m i s)).results).lookup
          (normalize_url u) = some (.full none none []) ∧
        normalize_url u ∈ (scrapeRun env b m i fuel (scrapeStep env b m i s)).visited := by
  obtain ⟨hres, hvis2⟩ := scrapeStep_terminal_failure env b m i s u d rest hq
    hpre hproc herr hvis hsusp hfault hfetch
  intro fuel
  constructor
  · apply scrapeRun_results_lookup_mono
    rw [hres, lookup_append_of_none hlook]
    simp
  · exact scrapeRun_visited_mono env b m i fuel _ hvis2

theorem C1_terminal_failure_recorded_witness :
    ((scrapeRun envTerminalFailure "https://example.com" 0 0 0
        (scrapeStep envTerminalFailure "https://example.com" 0 0
          (ScrapeState.init "https://example.com"))).results).lookup
        (normalize_url "https://example.com") = some (.full none none []) ∧
      normalize_url "https://example.com" ∈
        (scrapeRun envTerminalFailure "https://example.com" 0 0 0
          (scrapeStep envTerminalFailure "https://example.com" 0 0
            (ScrapeState.init "https://example.com"))).visited :=
  C1_terminal_failure_recorded envTerminalFailure "https://example.com" 0 0
    (ScrapeState.init "https://example.com") "https://example.com" 0 []
    rfl (by decide) (by decide) (by decide) (by decide) (by decide) rfl rfl rfl 0

/-- C2 (counterexample): in the claim's own scenario the foreign url
`https://other.com/b` does appear in a Page Record — inside the seed
record's `discovered_urls` list, which stores all discovered urls
unfiltered; moreover the enqueue filter is a string-prefix test against
the base url, not a domain comparison, so a url of a different domain
that extends the base url as a string is enqueued. -/
theorem C2_counterexample :
    ((scrapeRun envForeignLink "https://example.com" 1 0 2
        (ScrapeState.init "https://example.com")).results).lookup
        "https://example.com" =
      some (.full (some "meta") (some "text")
        ["https://example.com/a", "https://other.com/b"]) ∧
    get_domain "https://other.com/b" ≠ get_domain "https://example.com" ∧
    (scrapeRun envEvilPrefix "https://example.com" 1 0 1
        (ScrapeState.init "https://example.com")).urlsToProcess =
      [("https://example.com.evil.org/b", 1)] ∧
    get_domain "https://example.com.evil.org/b" ≠
      get_domain "https://example.com" := by
  decide

/-- C2 (amended): a discovered url is enqueued only when its normalized
form starts with the base url string (a prefix test, not a domain
comparison), and every key of the result set starts with the base url —
so a url failing the prefix test never enters the frontier and never gets
its own Page Record, though it may still be listed inside another
record's `discovered_urls`. -/
theorem C2_base_prefix_invariant (env : ScrapeEnv) (b : String) (m i fuel : ℕ)
    (s : ScrapeState)
    (h1 : ∀ k r, (k, r) ∈ s.results → pyStartsWith k b = true)
    (h2 : ∀ u d, (u, d) ∈ s.urlsToProcess → 1 ≤ d → pyStartsWith u b = true) :
    (∀ k r, (k, r) ∈ (scrapeRun env b m i fuel s).results →
        pyStartsWith k b = true) ∧
      (∀ u d, (u, d) ∈ (scrapeRun env b m i fuel s).urlsToProcess → 1 ≤ d →
        pyStartsWith u b = true) :=
  scrapeRun_preserves_prefixed env b m i fuel s h1 h2

theorem C2_base_prefix_invariant_witness :
    pyStartsWith "https://example.com" "https://example.com" = true :=
  (C2_base_prefix_invariant envForeignLink "https://example.com" 1 0 2
      (ScrapeState.init "https://example.com")
      (by intro k r hm; simp [ScrapeState.init] at hm)
      (by
        intro u d hm hd
        simp [ScrapeState.init] at hm
        omega)).1
    "https://example.com"
    (.full (some "meta") (some "text")
      ["https://example.com/a", "https://other.com/b"])
    (by decide)

/-- C3 (counterexample): `add_to_pool` neither deduplicates against the
pending pool nor normalizes: adding the same url twice appends it twice,
and a url is stored verbatim even when its normalized form differs. -/
theorem C3_counterexample :
    ((URLTracker.init.add_to_pool "https://a.com/x").add_to_pool
        "https://a.com/x").urlPool = ["https://a.com/x", "https://a.com/x"] ∧
      (URLTracker.init.add_to_pool "HTTP://A.com/Page/").urlPool =
        ["HTTP://A.com/Page/"] ∧
      normalize_url "HTTP://A.com/Page/" ≠ "HTTP://A.com/Page/" := by
  decide

/-- C3 (amended): `add_to_pool` appends the url verbatim (no
normalization) exactly when it is not in the visited set — the pending
pool is never consulted, so the operation is not idempotent — and
`add_bulk_to_pool` appends every not-yet-visited url of its argument in
iteration order, likewise without a pending check. -/
theorem C3_add_semantics (t : URLTracker) (u : String) (urls : List String) :
    (u ∈ t.visitedUrls → t.add_to_pool u = t) ∧
      (u ∉ t.visitedUrls →
        (t.add_to_pool u).urlPool = t.urlPool ++ [u] ∧
          (t.add_to_pool u).visitedUrls = t.visitedUrls) ∧
      (t.add_bulk_to_pool urls).urlPool =
        t.urlPool ++ urls.filter (fun v => decide (v ∉ t.visitedUrls)) := by
  refine ⟨fun h => URLTracker.add_to_pool_of_visited t u h, fun h => ?_, rfl⟩
  rw [URLTracker.add_to_pool_of_not_visited t u h]
  exact ⟨rfl, rfl⟩

theorem C3_add_semantics_witness :
    (URLTracker.init.add_to_pool "https://a.com/x").urlPool =
        URLTracker.init.urlPool ++ ["https://a.com/x"] ∧
      (URLTracker.init.add_to_pool "https://a.com/x").visitedUrls =
        URLTracker.init.visitedUrls :=
  (C3_add_semantics URLTracker.init "https://a.com/x" []).2.1 (by decide)

/-- C4: once a url is in the visited set, it stays there across any
sequence of tracker calls (the visited set only grows), `add_to_pool` for
it is a permanent no-op, and `add_bulk_to_pool` never appends it — bulk
adds behave as if the url were absent from the argument. -/
theorem C4_visited_permanent_noop (t : URLTracker) (u : String)
    (ops : List TrackerOp) (urls : List String) :
    u ∈ (TrackerOp.applyList ops (t.mark_visited u)).visitedUrls ∧
      (TrackerOp.applyList ops (t.mark_visited u)).add_to_pool u =
        TrackerOp.applyList ops (t.mark_visited u) ∧
      (TrackerOp.applyList ops (t.mark_visited u)).add_bulk_to_pool urls =
        (TrackerOp.applyList ops (t.mark_visited u)).add_bulk_to_pool
          (urls.filter (fun v => v ≠ u)) := by
  have hmem : u ∈ (TrackerOp.applyList ops (t.mark_visited u)).visitedUrls :=
    TrackerOp.visited_mono_list ops (t.mark_visited u)
      (Finset.mem_insert_self u t.visitedUrls)
  exact ⟨hmem, URLTracker.add_to_pool_of_visited _ u hmem,
    URLTracker.add_bulk_drop_visited _ u hmem urls⟩

/-- C5 (counterexample): the canonical-form example is wrong — an existing
scheme is preserved, so `HTTP://Example.com/Page/` maps to
`http://example.com/page`, not `https://…` — and idempotence fails
outright: urlparse's params split cuts at a `;` only in the last path
segment, so stripping a trailing slash can expose a `;` to the second
normalization. -/
theorem C5_counterexample :
    normalize_url "HTTP://Example.com/Page/" = "http://example.com/page" ∧
      normalize_url "HTTP://Example.com/Page/" ≠ "https://example.com/page" ∧
      normalize_url "http://x.com/a;b/" = "http://x.com/a;b" ∧
      normalize_url (normalize_url "http://x.com/a;b/") = "http://x.com/a" ∧
      normalize_url (normalize_url "http://x.com/a;b/") ≠
        normalize_url "http://x.com/a;b/" := by
  decide

/-- C5 (amended): `normalize_url` is idempotent on every url containing no
semicolon (the counterexample's params-split interplay cannot occur); the
canonical form defaults the scheme to `https` only when the url has none,
preserves an existing scheme, lowercases the whole url, strips the
trailing slash and drops query and fragment. -/
theorem C5_normalize_idem_semicolon_free (u : String)
    (h : (';' : Char) ∉ u.data) :
    normalize_url (normalize_url u) = normalize_url u :=
  normalize_url_idem_of_no_semicolon u h

theorem C5_normalize_idem_semicolon_free_witness :
    normalize_url (normalize_url "HTTP://Example.com/Page/") =
      normalize_url "HTTP://Example.com/Page/" :=
  C5_normalize_idem_semicolon_free "HTTP://Example.com/Page/" (by decide)

/-- C6: a fetch pipeline whose every attempt fails performs exactly
`max_retries` attempts — no extra one — sleeping
`initial_delay * 2 ^ attempt` between consecutive attempts (attempts `0`
through `max_retries - 2`), and re-raises after the final attempt. -/
theorem C6_retry_exhaustion {α : Type} (attemptResult : ℕ → Option α)
    (n d : ℕ) (hfail : ∀ j, attemptResult j = none) (hn : 1 ≤ n) :
    fetch_page attemptResult n d =
      ⟨(List.range (n - 1)).map (fun j => d * 2 ^ j), n, none⟩ := by
  rw [fetch_page, fetchPageLoop_all_fail attemptResult d hfail n 0 hn]
  simp

theorem C6_retry_exhaustion_witness :
    fetch_page (fun _ => (none : Option Unit)) MAX_RETRIES INITIAL_RETRY_DELAY =
      ⟨[1], 2, none⟩ := by
  rw [C6_retry_exhaustion (fun _ => (none : Option Unit)) MAX_RETRIES
    INITIAL_RETRY_DELAY (fun _ => rfl) (by decide)]
  decide

/-- C7: after a successful static fetch with no caller-forced method, the
pipeline escalates to Selenium iff the visible text extracted from the
static HTML is shorter than 500 characters. -/
theorem C7_dynamic_threshold (extractText : String → Option String)
    (content t : String) (h : extractText content = some t) :
    (escalatesToSelenium extractText none content = true ↔ t.length < 500) := by
  unfold escalatesToSelenium is_dynamic_content
  dsimp only
  rw [h]
  simp

theorem C7_dynamic_threshold_witness :
    escalatesToSelenium (fun _ => some (String.mk (List.replicate 40 'a')))
        none "page" = true ∧
      escalatesToSelenium (fun _ => some (String.mk (List.replicate 2000 'a')))
        none "page" = false := by
  constructor
  · apply (C7_dynamic_threshold (fun _ => some (String.mk (List.replicate 40 'a')))
      "page" (String.mk (List.replicate 40 'a')) rfl).mpr
    have h40 : (String.mk (List.replicate 40 'a')).length = 40 := by
      simp [String.length]
    omega
  · rw [Bool.eq_false_iff]
    intro hcon
    have hlen := (C7_dynamic_threshold
      (fun _ => some (String.mk (List.replicate 2000 'a'))) "page"
      (String.mk (List.replicate 2000 'a')) rfl).mp hcon
    have h2000 : (String.mk (List.replicate 2000 'a')).length = 2000 := by
      simp [String.length]
    omega

/-- C8: `is_valid_url(u, base)` is true iff the netloc of `u` equals the
netloc of `base` and the path of `u` does not carry an image/media file
extension; a url with such an extension is never admitted, whatever its
domain. -/
theorem C8_same_site_admission (u b : String) :
    (is_valid_url u b = true ↔
        (get_domain u = get_domain b ∧
          is_image_file_extension (String.mk (pyUrlparse u).path) = false)) ∧
      (is_image_file_extension (String.mk (pyUrlparse u).path) = true →
        is_valid_url u b = false) := by
  constructor
  · unfold is_valid_url get_domain
    simp only [Bool.and_eq_true, decide_eq_true_eq, Bool.not_eq_true',
      string_mk_inj]
  · intro h
    unfold is_valid_url
    simp [h]

theorem C8_same_site_admission_witness :
    is_valid_url "https://a.com/img.png" "https://a.com" = false :=
  (C8_same_site_admission "https://a.com/img.png" "https://a.com").2 (by decide)

/-- C9: with the drawn delay inside `[min_delay, max_delay]`, a monotone
clock and a sleep that never wakes early, the timestamp recorded by a
`wait` call is at least `min_delay` after the previously recorded one; and
when the elapsed time is below the drawn delay the call sleeps exactly the
remaining difference. -/
theorem C9_rate_limiter_lower_bound (min_delay max_delay last t1 r slack : ℚ)
    (hmin : min_delay ≤ r) (_hmax : r ≤ max_delay) (_hclock : last ≤ t1)
    (hslack : 0 ≤ slack) :
    min_delay ≤ rateLimiterRecorded last t1 r slack - last ∧
      (t1 - last < r → rateLimiterSleep last t1 r = r - (t1 - last)) := by
  unfold rateLimiterRecorded rateLimiterSleep
  constructor
  · split_ifs with h
    · linarith
    · linarith
  · intro h
    rw [if_pos h]

theorem C9_rate_limiter_lower_bound_witness :
    (1 : ℚ) / 10 ≤ rateLimiterRecorded 0 5 (3 / 20) 0 - 0 ∧
      ((5 : ℚ) - 0 < 3 / 20 → rateLimiterSleep 0 5 (3 / 20) = 3 / 20 - (5 - 0)) :=
  C9_rate_limiter_lower_bound (1 / 10) (1 / 5) 0 5 (3 / 20) 0
    (by norm_num) (by norm_num) (by norm_num) (by norm_num)

/-- C10: `process_page` never raises: when the fetch has terminally
failed, or metadata extraction raises, or the HTML text extraction raises,
it returns the tuple `(None, None, None, None, [])`. -/
theorem C10_process_page_never_raises (oracles : ProcessOracles)
    (fetchResult : Option (String × String × List String)) (i : ℕ)
    (url : String) :
    (fetchResult = none →
        process_page oracles fetchResult i url = (none, none, none, none, [])) ∧
      (∀ content content_type fetched,
        fetchResult = some (content, content_type, fetched) →
        oracles.extract_metadata content content_type url = none →
        process_page oracles fetchResult i url = (none, none, none, none, [])) ∧
      (∀ content content_type fetched,
        fetchResult = some (content, content_type, fetched) →
        pyStartsWith (pyLowerStr content_type) "text/html" = true →
        oracles.extract_text_from_html content = none →
        process_page oracles fetchResult i url = (none, none, none, none, [])) := by
  refine ⟨?_, ?_, ?_⟩
  · rintro rfl
    rfl
  · rintro c ct f rfl hmeta
    unfold process_page
    simp [hmeta]
  · rintro c ct f rfl hhtml hext
    unfold process_page
    rcases hmeta : oracles.extract_metadata c ct url with _ | m
    · simp [hmeta]
    · simp [hmeta, hhtml, hext]

theorem C10_process_page_never_raises_witness :
    process_page oraclesTrivial none 0 "https://example.com" =
      (none, none, none, none, []) :=
  (C10_process_page_never_raises oraclesTrivial none 0 "https://example.com").1 rfl

end Wormpy
